import Mathlib

/-!
Verification of the STL mesh codec of this repository (module `stl_io.py`)
against its natural-language specification.

The embedding is shallow:

* Coordinates are values of an arbitrary linearly ordered inhabited type
  `α` (standing for the IEEE floating point numbers of the source; the
  codec performs no arithmetic on coordinates — it only compares them and
  sorts them, so every statement below holds uniformly in `α`, and
  concrete witnesses instantiate `α := ℤ`).
* Byte streams are `List ℕ`; Python's `f.read(n)` and `f.readline()`
  become take/drop style operations that truncate silently at end of
  stream, exactly as Python file objects do.  The readers' per-line
  `decode('utf-8')` is modelled byte-transparently: every literal the
  grammar compares against is ASCII, where the decode is the identity
  (streams containing invalid UTF-8, where Python would raise a decode
  error, are outside the statements below).
* Raised exceptions become `Except PyErr` values.
* The IEEE float32 byte codec, the textual float formatting, and the
  normal computation (whose 12 output bytes every reader discards) are
  irrational in general and enter as explicit function parameters.
-/

namespace Stl

/-- Exception kinds raised by the code or promised by the specification.
`assertionError` models Python's bare `assert`; `valueError` and
`indexError` model the numpy exceptions; `formatError` and `parseErrorAt`
model the specification's error taxonomy (a `FormatError`, and a
`ParseError` carrying the offending line and its line number) — the source
never constructs these last two. -/
inductive PyErr where
  | assertionError : PyErr
  | valueError : PyErr
  | indexError : PyErr
  | formatError : PyErr
  | parseErrorAt : List ℕ → ℕ → PyErr
deriving DecidableEq

deriving instance DecidableEq for Except

/-- Whether an `Except` computation succeeded. -/
def isOkE {ε σ : Type} : Except ε σ → Bool
  | .ok _ => true
  | .error _ => false

/-- Points are coordinate triples, mirroring the rows of the numpy arrays. -/
abbrev Pt (α : Type) := α × α × α

section ListUtil

variable {α : Type} {β : Type}

/-- Index of the first occurrence of `a` in `l` (`l.length` when absent).
The numpy `return_index` array and the `return_inverse` array of
`data_from_facets` are both made of such first-occurrence indices. -/
def firstIdx [DecidableEq α] (a : α) : List α → ℕ
  | [] => 0
  | b :: l => if b = a then 0 else firstIdx a l + 1

theorem firstIdx_lt_length [DecidableEq α] {a : α} {l : List α} (h : a ∈ l) :
    firstIdx a l < l.length := by
  induction l with
  | nil => cases h
  | cons b l ih =>
    by_cases hb : b = a
    · simp [firstIdx, hb]
    · have ha : a ∈ l := by
        rcases List.mem_cons.mp h with h1 | h1
        · exact absurd h1.symm hb
        · exact h1
      simp only [firstIdx, if_neg hb, List.length_cons]
      exact Nat.succ_lt_succ (ih ha)

theorem getD_firstIdx [DecidableEq α] {a : α} {l : List α} (h : a ∈ l) (d : α) :
    l.getD (firstIdx a l) d = a := by
  induction l with
  | nil => cases h
  | cons b l ih =>
    by_cases hb : b = a
    · simp [firstIdx, hb]
    · have ha : a ∈ l := by
        rcases List.mem_cons.mp h with h1 | h1
        · exact absurd h1.symm hb
        · exact h1
      simp only [firstIdx, if_neg hb, List.getD_cons_succ]
      exact ih ha

theorem firstIdx_getD [DecidableEq α] {l : List α} (hnd : l.Nodup) {i : ℕ}
    (hi : i < l.length) (d : α) : firstIdx (l.getD i d) l = i := by
  induction l generalizing i with
  | nil => simp at hi
  | cons b l ih =>
    rcases List.nodup_cons.mp hnd with ⟨hb, hl⟩
    cases i with
    | zero => simp [firstIdx]
    | succ i =>
      have hi' : i < l.length := by simpa using hi
      have hmem : l.getD i d ∈ l := by
        rw [List.getD_eq_getElem _ _ hi']
        exact List.getElem_mem hi'
      have hne : b ≠ l.getD i d := fun hEq => hb (hEq ▸ hmem)
      simp only [List.getD_cons_succ, firstIdx, if_neg hne]
      rw [ih hl hi']

theorem firstIdx_inj [DecidableEq α] {a b : α} {l : List α}
    (ha : a ∈ l) (hb : b ∈ l) (h : firstIdx a l = firstIdx b l) : a = b := by
  have h1 := getD_firstIdx ha a
  have h2 := getD_firstIdx hb a
  rw [← h1, h, h2]

theorem getD_mem_of_lt {l : List α} {i : ℕ} (hi : i < l.length) (d : α) :
    l.getD i d ∈ l := by
  rw [List.getD_eq_getElem _ _ hi]
  exact List.getElem_mem hi

theorem getD_map_of_lt (f : α → β) {l : List α} {n : ℕ} (h : n < l.length)
    (d : α) (d' : β) : (l.map f).getD n d' = f (l.getD n d) := by
  rw [List.getD_eq_getElem _ _ (by simpa using h), List.getD_eq_getElem _ _ h,
    List.getElem_map]

theorem map_getD_range (l : List α) (d : α) :
    (List.range l.length).map (fun i => l.getD i d) = l := by
  induction l with
  | nil => rfl
  | cons a l ih =>
    rw [List.length_cons, List.range_succ_eq_map, List.map_cons, List.map_map]
    refine congrArg₂ List.cons rfl ?_
    have hstep : List.map ((fun i => (a :: l).getD i d) ∘ Nat.succ) (List.range l.length)
        = List.map (fun i => l.getD i d) (List.range l.length) := by
      apply List.map_congr_left
      intro i _
      simp
    rw [hstep, ih]

theorem getD_range {n i : ℕ} (hi : i < n) : (List.range n).getD i 0 = i := by
  rw [List.getD_eq_getElem _ _ (by simpa using hi)]
  exact List.getElem_range _ _

/-- Distinct elements of a list, ordered by first appearance: the reference
result the numpy pipeline of `data_from_facets` must reproduce. -/
def firstOccur [DecidableEq α] : List α → List α
  | [] => []
  | a :: l => a :: (firstOccur l).filter (fun b => decide (b ≠ a))

@[simp] theorem mem_firstOccur [DecidableEq α] {a : α} {l : List α} :
    a ∈ firstOccur l ↔ a ∈ l := by
  induction l with
  | nil => simp [firstOccur]
  | cons b l ih =>
    by_cases hb : a = b
    · simp [firstOccur, hb]
    · simp [firstOccur, List.mem_filter, ih, hb]

theorem nodup_firstOccur [DecidableEq α] (l : List α) : (firstOccur l).Nodup := by
  induction l with
  | nil => simp [firstOccur]
  | cons a l ih =>
    rw [firstOccur, List.nodup_cons]
    constructor
    · intro hmem
      rcases List.mem_filter.mp hmem with ⟨_, hne⟩
      simp at hne
    · exact List.Nodup.filter _ ih

theorem firstOccur_of_nodup [DecidableEq α] {l : List α} (h : l.Nodup) :
    firstOccur l = l := by
  induction l with
  | nil => rfl
  | cons a t ih =>
    rcases List.nodup_cons.mp h with ⟨ha, ht⟩
    rw [firstOccur, ih ht]
    refine congrArg _ (List.filter_eq_self.mpr ?_)
    intro b hb
    exact decide_eq_true (fun hEq => ha (hEq ▸ hb))

theorem pairwise_firstIdx_firstOccur [DecidableEq α] (l : List α) :
    (firstOccur l).Pairwise (fun a b => firstIdx a l < firstIdx b l) := by
  induction l with
  | nil => simp [firstOccur]
  | cons c l ih =>
    rw [firstOccur, List.pairwise_cons]
    constructor
    · intro b hb
      rcases List.mem_filter.mp hb with ⟨hmem, hne⟩
      have hbc : b ≠ c := by simpa using hne
      simp [firstIdx, if_neg (fun h : c = b => hbc h.symm)]
    · have hp := List.Pairwise.filter (fun b => decide (b ≠ c)) ih
      apply hp.imp_of_mem
      intro a b ha hb hlt
      rcases List.mem_filter.mp ha with ⟨_, hane⟩
      rcases List.mem_filter.mp hb with ⟨_, hbne⟩
      have hac : a ≠ c := by simpa using hane
      have hbc : b ≠ c := by simpa using hbne
      have h1 : c ≠ a := fun h => hac h.symm
      have h2 : c ≠ b := fun h => hbc h.symm
      simpa [firstIdx, if_neg h1, if_neg h2] using Nat.succ_lt_succ hlt

/-- numpy `argsort` on a list of naturals: the positions of the list,
reordered so that the values read along them ascend (what order equal
values take is irrelevant below — `argsort` is only ever applied to lists
without duplicate values, where every sort agrees). -/
def argsort (l : List ℕ) : List ℕ :=
  List.insertionSort (fun i j => l.getD i 0 ≤ l.getD j 0) (List.range l.length)

theorem argsort_perm_range (l : List ℕ) : (argsort l).Perm (List.range l.length) :=
  List.perm_insertionSort _ _

theorem length_argsort (l : List ℕ) : (argsort l).length = l.length := by
  rw [(argsort_perm_range l).length_eq, List.length_range]

theorem mem_argsort_lt {l : List ℕ} {j : ℕ} (h : j ∈ argsort l) : j < l.length := by
  have := (argsort_perm_range l).mem_iff.mp h
  simpa using this

theorem sorted_map_getD_argsort (l : List ℕ) :
    ((argsort l).map (fun i => l.getD i 0)).Pairwise (· ≤ ·) := by
  haveI hT : IsTotal ℕ (fun i j => l.getD i 0 ≤ l.getD j 0) :=
    ⟨fun a b => Nat.le_total _ _⟩
  haveI hTr : IsTrans ℕ (fun i j => l.getD i 0 ≤ l.getD j 0) :=
    ⟨fun a b c h1 h2 => Nat.le_trans h1 h2⟩
  have hs := List.sorted_insertionSort (fun i j => l.getD i 0 ≤ l.getD j 0)
    (List.range l.length)
  exact List.pairwise_map.mpr hs

theorem map_getD_argsort_of_perm {l : List ℕ}
    (hp : l.Perm (List.range l.length)) :
    (argsort l).map (fun i => l.getD i 0) = List.range l.length := by
  have hperm : ((argsort l).map (fun i => l.getD i 0)).Perm (List.range l.length) := by
    have h1 := (argsort_perm_range l).map (fun i => l.getD i 0)
    rw [map_getD_range l 0] at h1
    exact h1.trans hp
  have hsorted := sorted_map_getD_argsort l
  have hrange : (List.range l.length).Pairwise ((· ≤ ·) : ℕ → ℕ → Prop) :=
    (List.pairwise_lt_range _).imp (fun h => Nat.le_of_lt h)
  exact List.eq_of_perm_of_sorted hperm hsorted hrange

/-- When `l` is a permutation of `range l.length`, `argsort l` is its
inverse permutation (this is how `data_from_facets` uses the second
`argsort`). -/
theorem argsort_inverse {l : List ℕ} (hp : l.Perm (List.range l.length))
    {s : ℕ} (hs : s < l.length) :
    l.getD ((argsort l).getD s 0) 0 = s ∧ (argsort l).getD s 0 < l.length := by
  have hlen : s < (argsort l).length := by rwa [length_argsort]
  have hmem : (argsort l).getD s 0 ∈ argsort l := getD_mem_of_lt hlen 0
  refine ⟨?_, mem_argsort_lt hmem⟩
  have h1 : ((argsort l).map (fun i => l.getD i 0)).getD s 0
      = l.getD ((argsort l).getD s 0) 0 := getD_map_of_lt _ hlen 0 0
  rw [map_getD_argsort_of_perm hp] at h1
  rw [← h1, getD_range hs]

/-- numpy `reshape(-1, 3)` of a flat index list into index triples. -/
def group3 : List ℕ → List (ℕ × ℕ × ℕ)
  | a :: b :: c :: r => (a, b, c) :: group3 r
  | _ => []

/-- numpy `reshape(-1, 3)` of a flat float list into coordinate rows. -/
def rows3 : List α → List (Pt α)
  | a :: b :: c :: r => (a, b, c) :: rows3 r
  | _ => []

end ListUtil

section Builder

variable {α : Type} [LinearOrder α] [Inhabited α]

/-- Lexicographic order on points.  It fixes the value order in which
`npUnique` lists the distinct rows; which total order the sort uses is
irrelevant to `data_from_facets` (only the set of rows matters, since a
second `argsort` rearranges them by first occurrence). -/
def ptLe (p q : Pt α) : Prop :=
  p.1 < q.1 ∨ (p.1 = q.1 ∧ (p.2.1 < q.2.1 ∨ (p.2.1 = q.2.1 ∧ p.2.2 ≤ q.2.2)))

instance : DecidableRel (@ptLe α _) := fun p q => by
  unfold ptLe
  infer_instance

/-- numpy `unique(pts, axis=0, return_index=True, return_inverse=True)`:
the distinct rows of `pts` in ascending value order; for each distinct row
the index of its first occurrence in `pts` (numpy guarantees first
occurrences by switching to a stable sort when `return_index` is
requested); and for each row of `pts` its position in the distinct-row
list. -/
def npUnique (pts : List (Pt α)) : List (Pt α) × List ℕ × List ℕ :=
  let uniq := List.insertionSort ptLe (firstOccur pts)
  (uniq, uniq.map (fun p => firstIdx p pts), pts.map (fun p => firstIdx p uniq))

/-- Shallow embedding of `data_from_facets`.  A facet is the row list of
one per-triangle coordinate block — exactly 3 points when produced by the
ASCII parser, possibly another count when the binary stream was truncated.
`numpy.concatenate` of an empty sequence raises `ValueError`, and the
final `reshape(-1, 3)` raises `ValueError` when the number of flattened
points is not a multiple of 3. -/
def data_from_facets (facets : List (List (Pt α))) :
    Except PyErr (List (Pt α) × List (ℕ × ℕ × ℕ)) :=
  if facets = [] then .error .valueError
  else
    let pts := facets.flatten
    let u := npUnique pts
    let idx := u.2.1
    let inv := u.2.2
    let k := argsort idx
    let points := k.map (fun j => pts.getD (idx.getD j 0) default)
    let inv_k := argsort k
    let cellsFlat := inv.map (fun s => inv_k.getD s 0)
    if cellsFlat.length % 3 = 0 then .ok (points, group3 cellsFlat)
    else .error .valueError

theorem pipeline_points_map (pts uniq : List (Pt α))
    (hmem : ∀ p, p ∈ uniq ↔ p ∈ pts) :
    (argsort (uniq.map (fun p => firstIdx p pts))).map
        (fun j => pts.getD ((uniq.map (fun p => firstIdx p pts)).getD j 0) default)
      = (argsort (uniq.map (fun p => firstIdx p pts))).map
        (fun j => uniq.getD j default) := by
  set idx := uniq.map (fun p => firstIdx p pts) with hidxdef
  have hlen : idx.length = uniq.length := List.length_map _ _
  apply List.map_congr_left
  intro j hj
  have hj' : j < uniq.length := hlen ▸ mem_argsort_lt hj
  have hgetD : idx.getD j 0 = firstIdx (uniq.getD j default) pts :=
    getD_map_of_lt _ hj' default 0
  have hpm : uniq.getD j default ∈ pts := (hmem _).mp (getD_mem_of_lt hj' default)
  rw [hgetD, getD_firstIdx hpm default]

/-- The heart of `data_from_facets`: indexing the flattened point list by
the first-occurrence indices of the distinct rows, reordered by the first
`argsort`, lists the distinct points in order of first appearance —
whatever value order `uniq` enumerated them in. -/
theorem pipeline_points_eq (pts uniq : List (Pt α)) (hnd : uniq.Nodup)
    (hmem : ∀ p, p ∈ uniq ↔ p ∈ pts) :
    (argsort (uniq.map (fun p => firstIdx p pts))).map
        (fun j => pts.getD ((uniq.map (fun p => firstIdx p pts)).getD j 0) default)
      = firstOccur pts := by
  rw [pipeline_points_map pts uniq hmem]
  set idx := uniq.map (fun p => firstIdx p pts) with hidxdef
  have hlen : idx.length = uniq.length := List.length_map _ _
  have hgetD : ∀ j < uniq.length, idx.getD j 0 = firstIdx (uniq.getD j default) pts := by
    intro j hj
    exact getD_map_of_lt _ hj default 0
  have hB : ((argsort idx).map (fun j => uniq.getD j default)).Perm uniq := by
    have h1 := (argsort_perm_range idx).map (fun j => uniq.getD j default)
    rw [hlen, map_getD_range uniq default] at h1
    exact h1
  have hC : uniq.Perm (firstOccur pts) :=
    (List.perm_ext_iff_of_nodup hnd (nodup_firstOccur pts)).mpr
      (fun a => (hmem a).trans mem_firstOccur.symm)
  have hperm : ((argsort idx).map (fun j => uniq.getD j default)).Perm (firstOccur pts) :=
    hB.trans hC
  have hidxnd : idx.Nodup := by
    apply List.Nodup.map_on ?_ hnd
    intro x hx y hy hEq
    exact firstIdx_inj ((hmem x).mp hx) ((hmem y).mp hy) hEq
  have hvalperm : ((argsort idx).map (fun j => idx.getD j 0)).Perm idx := by
    have h1 := (argsort_perm_range idx).map (fun j => idx.getD j 0)
    rw [map_getD_range idx 0] at h1
    exact h1
  have hvalnd : ((argsort idx).map (fun j => idx.getD j 0)).Nodup :=
    hvalperm.symm.nodup hidxnd
  have hstrict : ((argsort idx).map (fun j => idx.getD j 0)).Pairwise (· < ·) :=
    ((sorted_map_getD_argsort idx).and hvalnd).imp
      (fun h => Nat.lt_of_le_of_ne h.1 h.2)
  have hmapeq : (argsort idx).map (fun j => idx.getD j 0)
      = ((argsort idx).map (fun j => uniq.getD j default)).map
          (fun p => firstIdx p pts) := by
    rw [List.map_map]
    apply List.map_congr_left
    intro j hj
    have hj' : j < uniq.length := hlen ▸ mem_argsort_lt hj
    simp only [Function.comp_apply]
    exact hgetD j hj'
  have hpsorted : ((argsort idx).map (fun j => uniq.getD j default)).Pairwise
      (fun a b => firstIdx a pts < firstIdx b pts) := by
    rw [hmapeq] at hstrict
    exact List.pairwise_map.mp hstrict
  haveI : IsAntisymm (Pt α) (fun a b => firstIdx a pts < firstIdx b pts) :=
    ⟨fun a b h1 h2 => absurd (Nat.lt_trans h1 h2) (Nat.lt_irrefl _)⟩
  exact List.eq_of_perm_of_sorted hperm hpsorted (pairwise_firstIdx_firstOccur pts)

/-- The flat cell indices of `data_from_facets`: composing the inverse
array of numpy `unique` with the second `argsort` sends every flattened
point to its position in the first-appearance vertex list. -/
theorem pipeline_cells_eq (pts uniq : List (Pt α)) (hnd : uniq.Nodup)
    (hmem : ∀ p, p ∈ uniq ↔ p ∈ pts) {p : Pt α} (hp : p ∈ pts) :
    (argsort (argsort (uniq.map (fun q => firstIdx q pts)))).getD
        (firstIdx p uniq) 0
      = firstIdx p (firstOccur pts) := by
  set idx := uniq.map (fun q => firstIdx q pts) with hidxdef
  set k := argsort idx with hkdef
  have hlen : idx.length = uniq.length := List.length_map _ _
  have hklen : k.length = idx.length := length_argsort idx
  have hkperm : k.Perm (List.range k.length) := by
    rw [hklen]
    exact argsort_perm_range idx
  have hs : firstIdx p uniq < k.length := by
    rw [hklen, hlen]
    exact firstIdx_lt_length ((hmem p).mpr hp)
  obtain ⟨hinv, hjlt⟩ := argsort_inverse hkperm hs
  set j := (argsort k).getD (firstIdx p uniq) 0 with hjdef
  have hfo : firstOccur pts = k.map (fun i => uniq.getD i default) := by
    rw [← pipeline_points_eq pts uniq hnd hmem, pipeline_points_map pts uniq hmem]
  have hjpt : (firstOccur pts).getD j default = p := by
    rw [hfo, getD_map_of_lt _ hjlt 0 default, hinv,
      getD_firstIdx ((hmem p).mpr hp) default]
  have hjlt' : j < (firstOccur pts).length := by
    rw [hfo, List.length_map]
    exact hjlt
  have hfi := firstIdx_getD (nodup_firstOccur pts) hjlt' default
  rw [hjpt] at hfi
  exact hfi.symm

/-- Full description of `data_from_facets` on a non-empty facet list whose
flattened point count is a multiple of 3: the vertex list is the sequence
of distinct flattened points in first-appearance order, and the flat cell
indices are each flattened point's position in that vertex list. -/
theorem data_from_facets_eq (facets : List (List (Pt α))) (hne : facets ≠ [])
    (h3 : facets.flatten.length % 3 = 0) :
    data_from_facets facets
      = .ok (firstOccur facets.flatten,
          group3 (facets.flatten.map
            (fun p => firstIdx p (firstOccur facets.flatten)))) := by
  have hnd : (List.insertionSort ptLe (firstOccur facets.flatten)).Nodup :=
    (List.perm_insertionSort ptLe (firstOccur facets.flatten)).symm.nodup
      (nodup_firstOccur facets.flatten)
  have hmem : ∀ p, p ∈ List.insertionSort ptLe (firstOccur facets.flatten)
      ↔ p ∈ facets.flatten := fun p =>
    ((List.perm_insertionSort ptLe (firstOccur facets.flatten)).mem_iff).trans
      mem_firstOccur
  unfold data_from_facets npUnique
  rw [if_neg hne]
  dsimp only
  have hclen : ((facets.flatten.map
      (fun p => firstIdx p (List.insertionSort ptLe (firstOccur facets.flatten)))).map
        (fun s => (argsort (argsort ((List.insertionSort ptLe
          (firstOccur facets.flatten)).map
            (fun p => firstIdx p facets.flatten)))).getD s 0)).length
      = facets.flatten.length := by
    rw [List.length_map, List.length_map]
  rw [hclen, if_pos h3]
  refine congrArg Except.ok (congrArg₂ Prod.mk ?_ ?_)
  · exact pipeline_points_eq facets.flatten _ hnd hmem
  · refine congrArg group3 ?_
    rw [List.map_map]
    apply List.map_congr_left
    intro p hp
    simp only [Function.comp_apply]
    exact pipeline_cells_eq facets.flatten _ hnd hmem hp

end Builder

section Bytes

variable {α : Type}

/-- Python `f.readline()` on a byte stream: the consumed bytes (up to and
including the first newline byte 10, or the whole stream when it contains
none) together with the remaining stream. -/
def readLineBytes : List ℕ → List ℕ × List ℕ
  | [] => ([], [])
  | b :: r =>
    if b = 10 then ([10], r)
    else (b :: (readLineBytes r).1, (readLineBytes r).2)

theorem readLineBytes_snd_le (s : List ℕ) :
    (readLineBytes s).2.length ≤ s.length := by
  induction s with
  | nil => simp [readLineBytes]
  | cons b r ih =>
    by_cases hb : b = 10
    · simp [readLineBytes, hb]
    · simp only [readLineBytes, if_neg hb, List.length_cons]
      exact Nat.le_succ_of_le ih

theorem readLineBytes_snd_lt {s : List ℕ} (h : s ≠ []) :
    (readLineBytes s).2.length < s.length := by
  cases s with
  | nil => exact absurd rfl h
  | cons b r =>
    by_cases hb : b = 10
    · simp [readLineBytes, hb]
    · simp only [readLineBytes, if_neg hb, List.length_cons]
      exact Nat.lt_succ_of_le (readLineBytes_snd_le r)

theorem readLineBytes_append {line rest : List ℕ} (h : 10 ∉ line) :
    readLineBytes (line ++ 10 :: rest) = (line ++ [10], rest) := by
  induction line with
  | nil => simp [readLineBytes]
  | cons b l ih =>
    have hb : b ≠ 10 := fun hEq => h (hEq ▸ List.mem_cons_self b l)
    have hl : 10 ∉ l := fun hm => h (List.mem_cons_of_mem b hm)
    simp [readLineBytes, hb, ih hl]

/-- ASCII whitespace, as Python's `str.strip` and `str.split` see it in the
byte range the grammar uses. -/
def isSpaceByte (b : ℕ) : Bool :=
  b = 32 || b = 9 || b = 10 || b = 13 || b = 11 || b = 12

/-- Python `str.strip()` restricted to the ASCII byte range. -/
def stripBytes (l : List ℕ) : List ℕ :=
  ((l.dropWhile isSpaceByte).reverse.dropWhile isSpaceByte).reverse

/-- Accumulator form of Python `str.split()` (split on whitespace runs,
no empty tokens). -/
def splitWsAux : List ℕ → List ℕ → List (List ℕ)
  | [], acc => if acc = [] then [] else [acc.reverse]
  | b :: r, acc =>
    if isSpaceByte b then
      if acc = [] then splitWsAux r [] else acc.reverse :: splitWsAux r []
    else splitWsAux r (b :: acc)

/-- Python `str.split()` with no argument. -/
def splitWs (l : List ℕ) : List (List ℕ) := splitWsAux l []

/-- UTF-8 bytes of an ASCII string literal. -/
def strBytes (s : String) : List ℕ := s.data.map Char.toNat

def solidBytes : List ℕ := strBytes ("solid")

def endsolidBytes : List ℕ := strBytes ("endsolid")

def facetBytes : List ℕ := strBytes ("facet")

def outerLoopBytes : List ℕ := strBytes ("outer loop")

def endloopBytes : List ℕ := strBytes ("endloop")

def endfacetBytes : List ℕ := strBytes ("endfacet")

def vertexBytes : List ℕ := strBytes ("vertex")

/-- The 4 little-endian bytes of `numpy.uint32 n`. -/
def u32enc (n : ℕ) : List ℕ :=
  [n % 256, n / 256 % 256, n / 256 ^ 2 % 256, n / 256 ^ 3 % 256]

/-- Value of up to 4 little-endian bytes. -/
def u32dec (b : List ℕ) : ℕ :=
  b.getD 0 0 + 256 * (b.getD 1 0 + 256 * (b.getD 2 0 + 256 * b.getD 3 0))

theorem u32dec_u32enc {n : ℕ} (h : n < 2 ^ 32) : u32dec (u32enc n) = n := by
  simp only [u32enc, u32dec, List.getD_cons_zero, List.getD_cons_succ]
  omega

/-- The consecutive 4-byte groups of a buffer (numpy element boundaries for
a 4-byte dtype). -/
def groups4 : List ℕ → List (List ℕ)
  | a :: b :: c :: d :: r => [a, b, c, d] :: groups4 r
  | _ => []

/-- numpy `fromstring(buf, dtype=uint32)` followed by `data[0]`: raises
`ValueError` when the buffer is empty ("string is empty") or its size is
not a multiple of the 4-byte element size; the read of at most 4 bytes
otherwise yields exactly one element, returned here directly. -/
def npFromstringU32 (b : List ℕ) : Except PyErr ℕ :=
  if b.length = 0 then .error .valueError
  else if b.length % 4 ≠ 0 then .error .valueError
  else .ok (u32dec b)

/-- numpy `fromstring(buf, dtype=float32)`: raises `ValueError` on an empty
buffer or one whose size is not a multiple of the 4-byte element size;
otherwise decodes each 4-byte group through the abstract float32 reader
`dec`. -/
def npFromstringF32 (dec : List ℕ → α) (b : List ℕ) : Except PyErr (List α) :=
  if b.length = 0 then .error .valueError
  else if b.length % 4 ≠ 0 then .error .valueError
  else .ok ((groups4 b).map dec)

/-- numpy `reshape(-1, 3)` on the decoded float list: `ValueError` when the
element count is not a multiple of 3. -/
def npReshape3 (xs : List α) : Except PyErr (List (Pt α)) :=
  if xs.length % 3 = 0 then .ok (rows3 xs) else .error .valueError

/-- The 5-tuple `points, cells, point_data, cell_data, field_data` the
readers return; the three trailing dictionaries are represented by their
key lists. -/
abbrev ReadResult (α : Type) :=
  List (Pt α) × List (ℕ × ℕ × ℕ) × List String × List String × List String

set_option synthInstance.maxSize 512 in
instance instDecEqReadResult [DecidableEq α] : DecidableEq (ReadResult α) :=
  inferInstance

/-- The per-triangle loop of `_read_binary`: discard the 12 normal bytes,
decode the 36 vertex bytes through numpy `fromstring`/`reshape`, discard
the 2 attribute bytes.  Short reads at end of stream truncate silently,
exactly like Python's `f.read(n)`. -/
def readTriangles (dec : List ℕ → α) : ℕ → List ℕ → Except PyErr (List (List (Pt α)))
  | 0, _ => .ok []
  | n + 1, s =>
    match npFromstringF32 dec ((s.drop 12).take 36) with
    | .error e => .error e
    | .ok xs =>
      match npReshape3 xs with
      | .error e => .error e
      | .ok facet =>
        match readTriangles dec n (((s.drop 12).drop 36).drop 2) with
        | .error e => .error e
        | .ok rest => .ok (facet :: rest)

/-- Shallow embedding of `_read_binary`: read 4 bytes as the uint32
triangle count, run the per-triangle loop, and hand the facet list to
`data_from_facets` (the intervening `numpy.array(facets)` preserves the
row content and is the identity of this embedding); on success the three
data dictionaries come back empty. -/
def read_binary [LinearOrder α] [Inhabited α] (dec : List ℕ → α) (s : List ℕ) :
    Except PyErr (ReadResult α) :=
  match npFromstringU32 (s.take 4) with
  | .error e => .error e
  | .ok n =>
    match readTriangles dec n (s.drop 4) with
    | .error e => .error e
    | .ok facets =>
      match data_from_facets facets with
      | .error e => .error e
      | .ok pc => .ok (pc.1, pc.2, [], [], [])

/-- One `vertex x y z` line of `_read_facet`: read a line, split it into
whitespace tokens, `assert` there are exactly 4 and that the first is the
literal `vertex`, then convert the coordinate tokens through the abstract
`float()` reader `pf`. -/
def readVertexLine (pf : List ℕ → α) (s : List ℕ) : Except PyErr (Pt α × List ℕ) :=
  let L := readLineBytes s
  let parts := splitWs L.1
  if parts.length ≠ 4 then .error .assertionError
  else if parts.getD 0 [] ≠ vertexBytes then .error .assertionError
  else .ok ((pf (parts.getD 1 []), pf (parts.getD 2 []), pf (parts.getD 3 [])), L.2)

theorem readVertexLine_rest_le {pf : List ℕ → α} {s r : List ℕ} {p : Pt α}
    (h : readVertexLine pf s = .ok (p, r)) : r.length ≤ s.length := by
  unfold readVertexLine at h
  dsimp only at h
  split at h
  · cases h
  · split at h
    · cases h
    · simp only [Except.ok.injEq, Prod.mk.injEq] at h
      rw [← h.2]
      exact readLineBytes_snd_le s

/-- Shallow embedding of `_read_facet`: `assert` the `outer loop` line,
read 3 vertex lines, `assert` the `endloop` line; returns the facet's 3
points and the remaining stream. -/
def read_facet (pf : List ℕ → α) (s : List ℕ) :
    Except PyErr (List (Pt α) × List ℕ) :=
  let L1 := readLineBytes s
  if stripBytes L1.1 ≠ outerLoopBytes then .error .assertionError
  else match readVertexLine pf L1.2 with
  | .error e => .error e
  | .ok (p1, s1) =>
    match readVertexLine pf s1 with
    | .error e => .error e
    | .ok (p2, s2) =>
      match readVertexLine pf s2 with
      | .error e => .error e
      | .ok (p3, s3) =>
        let L5 := readLineBytes s3
        if stripBytes L5.1 ≠ endloopBytes then .error .assertionError
        else .ok ([p1, p2, p3], L5.2)

theorem read_facet_rest_le {pf : List ℕ → α} {s r : List ℕ} {f : List (Pt α)}
    (h : read_facet pf s = .ok (f, r)) : r.length ≤ s.length := by
  unfold read_facet at h
  dsimp only at h
  split at h
  · cases h
  · split at h
    · cases h
    · rename_i p1s1 hv1
      split at h
      · cases h
      · rename_i p2s2 hv2
        split at h
        · cases h
        · rename_i p3s3 hv3
          split at h
          · cases h
          · simp only [Except.ok.injEq, Prod.mk.injEq] at h
            calc r.length = (readLineBytes p3s3).2.length := by rw [h.2]
              _ ≤ p3s3.length := readLineBytes_snd_le _
              _ ≤ p2s2.length := readVertexLine_rest_le hv3
              _ ≤ p1s1.length := readVertexLine_rest_le hv2
              _ ≤ (readLineBytes s).2.length := readVertexLine_rest_le hv1
              _ ≤ s.length := readLineBytes_snd_le s

/-- The `while True` loop of `_read_ascii`: read a line; stop at an
`endsolid` prefix; `assert` a `facet` prefix of the stripped line; parse
one facet with `read_facet`; `assert` the following `endfacet` line;
repeat.  Terminates because each iteration consumes at least one byte. -/
def readSolidLoop (pf : List ℕ → α) (s : List ℕ) :
    Except PyErr (List (List (Pt α))) :=
  if h1 : (readLineBytes s).1.take 8 = endsolidBytes then .ok []
  else if h2 : (stripBytes (readLineBytes s).1).take 5 ≠ facetBytes then
    .error .assertionError
  else
    match hf : read_facet pf (readLineBytes s).2 with
    | .error e => .error e
    | .ok fr =>
      if h3 : stripBytes (readLineBytes fr.2).1 ≠ endfacetBytes then
        .error .assertionError
      else
        match readSolidLoop pf (readLineBytes fr.2).2 with
        | .error e => .error e
        | .ok rest => .ok (fr.1 :: rest)
termination_by s.length
decreasing_by
  have hfacet := not_ne_iff.mp h2
  have hsne : s ≠ [] := by
    intro hs
    rw [hs] at hfacet
    have hnil : (stripBytes (readLineBytes ([] : List ℕ)).1).take 5 = [] := rfl
    rw [hnil] at hfacet
    exact absurd hfacet (by decide)
  have hlt : (readLineBytes s).2.length < s.length := readLineBytes_snd_lt hsne
  have h4 := read_facet_rest_le hf
  have h5 := readLineBytes_snd_le fr.2
  omega

/-- Shallow embedding of `_read_ascii`: the facet loop, then
`data_from_facets`, then the 5-tuple with empty data dictionaries. -/
def read_ascii [LinearOrder α] [Inhabited α] (pf : List ℕ → α) (s : List ℕ) :
    Except PyErr (ReadResult α) :=
  match readSolidLoop pf s with
  | .error e => .error e
  | .ok facets =>
    match data_from_facets facets with
    | .error e => .error e
    | .ok pc => .ok (pc.1, pc.2, [], [], [])

/-- Shallow embedding of `read_buffer`: read the first line, pick the
ASCII parser when it starts with the 5 bytes of `solid`, the binary parser
otherwise; the chosen parser continues after the consumed line. -/
def read_buffer [LinearOrder α] [Inhabited α] (pf : List ℕ → α) (dec : List ℕ → α) (s : List ℕ) :
    Except PyErr (ReadResult α) :=
  if (readLineBytes s).1.take 5 = solidBytes then read_ascii pf (readLineBytes s).2
  else read_binary dec (readLineBytes s).2

def triangleKey : String := "triangle"

/-- The value `cells['triangle']` (the callers below always guard the
lookup, so the default is never reached). -/
def cellsTriangles (cells : List (String × List (ℕ × ℕ × ℕ))) : List (ℕ × ℕ × ℕ) :=
  ((cells.lookup triangleKey).getD [])

/-- One row of `points[cells['triangle']]`: the triangle's 3 points looked
up by index. -/
def triPoints [Inhabited α] (points : List (Pt α)) (t : ℕ × ℕ × ℕ) : List (Pt α) :=
  [points.getD t.1 default, points.getD t.2.1 default, points.getD t.2.2 default]

def headerMsg : String := "This file was generated by meshio."

/-- The preamble `_write_binary` emits before the triangle count: the
attribution message padded with `X` (byte 88) to 80 characters, plus the
appended newline — 81 bytes in total. -/
def header81 : List ℕ :=
  strBytes headerMsg ++ List.replicate (80 - (strBytes headerMsg).length) 88 ++ [10]

/-- One 50-byte triangle record of `_write_binary`: the 12 bytes of
`normal.astype(numpy.float32)` (parameterized, since the normal involves a
square root), the 36 bytes of the 9 float32 coordinate encodings, and the
2 little-endian bytes of `numpy.uint16 0`. -/
def recordBytes (enc : α → List ℕ) (nrm : List (Pt α) → List ℕ)
    (f : List (Pt α)) : List ℕ :=
  nrm f ++ (f.map (fun p => enc p.1 ++ enc p.2.1 ++ enc p.2.2)).flatten ++ [0, 0]

/-- Shallow embedding of `_write_binary` (the file contents it writes):
the 81-byte preamble, the uint32 triangle count, then the records of
`zip(pts, normals)` in order with nothing in between. -/
def write_binary [Inhabited α] (enc : α → List ℕ) (nrm : List (Pt α) → List ℕ)
    (points : List (Pt α)) (cells : List (String × List (ℕ × ℕ × ℕ))) : List ℕ :=
  let tris := cellsTriangles cells
  let pts := tris.map (triPoints points)
  header81 ++ u32enc tris.length ++ (pts.map (recordBytes enc nrm)).flatten

/-- Shallow embedding of `_write_ascii` (the file contents it writes);
`fmt` is Python's default float formatting, `nrmA` the formatted
`nx ny nz` part of a facet's normal line. -/
def write_ascii [Inhabited α] (fmt : α → List ℕ) (nrmA : List (Pt α) → List ℕ)
    (points : List (Pt α)) (cells : List (String × List (ℕ × ℕ × ℕ))) : List ℕ :=
  let tris := cellsTriangles cells
  let pts := tris.map (triPoints points)
  strBytes ("solid") ++ [10] ++
    (pts.map (fun f =>
      strBytes ("facet normal ") ++ nrmA f ++ [10] ++
      strBytes (" outer loop") ++ [10] ++
      (f.map (fun p => strBytes ("  vertex ") ++ fmt p.1 ++ [32] ++
        fmt p.2.1 ++ [32] ++ fmt p.2.2 ++ [10])).flatten ++
      strBytes (" endloop") ++ [10] ++
      strBytes ("endfacet") ++ [10])).flatten ++
  strBytes ("endsolid") ++ [10]

/-- Shallow embedding of `write`: the three `assert` preconditions in
source order — `not point_data`, `not field_data`, and the cell key list
being exactly `['triangle']` — then the chosen writer's bytes.  The
`cell_data` argument is accepted and never examined, exactly as in the
source. -/
def write [Inhabited α] (enc : α → List ℕ) (nrm : List (Pt α) → List ℕ) (fmt : α → List ℕ)
    (nrmA : List (Pt α) → List ℕ) (points : List (Pt α))
    (cells : List (String × List (ℕ × ℕ × ℕ)))
    (point_data cell_data field_data : List String)
    (write_binary_flag : Bool) : Except PyErr (List ℕ) :=
  if point_data ≠ [] then .error .assertionError
  else if field_data ≠ [] then .error .assertionError
  else if cells.map Prod.fst ≠ [triangleKey] then .error .assertionError
  else if write_binary_flag then .ok (write_binary enc nrm points cells)
  else .ok (write_ascii fmt nrmA points cells)

end Bytes

section Support

variable {α : Type} {γ : Type}

theorem flatten_length_of_three {facets : List (List α)}
    (h3 : ∀ l ∈ facets, l.length = 3) :
    facets.flatten.length = 3 * facets.length := by
  induction facets with
  | nil => simp
  | cons l fs ih =>
    rw [List.flatten_cons, List.length_append, h3 l (List.mem_cons_self l fs),
      ih (fun x hx => h3 x (List.mem_cons_of_mem l hx)), List.length_cons]
    ring

theorem eq_of_length_three {l : List α} (h : l.length = 3) (d : α) :
    [l.getD 0 d, l.getD 1 d, l.getD 2 d] = l := by
  rcases List.length_eq_three.mp h with ⟨a, b, c, rfl⟩
  rfl

theorem group3_map_flatten [Inhabited α] (g : α → ℕ) (facets : List (List α))
    (h3 : ∀ l ∈ facets, l.length = 3) :
    group3 (facets.flatten.map g)
      = facets.map (fun l => (g (l.getD 0 default), g (l.getD 1 default),
          g (l.getD 2 default))) := by
  induction facets with
  | nil => rfl
  | cons l fs ih =>
    rcases List.length_eq_three.mp (h3 l (List.mem_cons_self l fs)) with ⟨a, b, c, rfl⟩
    have hh : (([a, b, c] :: fs).flatten.map g) = g a :: g b :: g c :: fs.flatten.map g := by
      simp
    rw [hh, group3, ih (fun x hx => h3 x (List.mem_cons_of_mem _ hx))]
    rfl

theorem take_append_of_length {l r : List γ} {n : ℕ} (h : l.length = n) :
    (l ++ r).take n = l := by
  rw [← h]
  exact List.take_left l r

theorem drop_append_of_length {l r : List γ} {n : ℕ} (h : l.length = n) :
    (l ++ r).drop n = r := by
  rw [← h]
  exact List.drop_left l r

theorem groups4_append {a r : List ℕ} (h : a.length = 4) :
    groups4 (a ++ r) = a :: groups4 r := by
  rcases a with - | ⟨x1, - | ⟨x2, - | ⟨x3, - | ⟨x4, - | ⟨x5, t⟩⟩⟩⟩⟩ <;>
    simp_all [groups4]

theorem length_groups4 : ∀ b : List ℕ, (groups4 b).length = b.length / 4
  | x1 :: x2 :: x3 :: x4 :: r => by
    rw [groups4, List.length_cons, length_groups4 r]
    simp only [List.length_cons]
    omega
  | [] => rfl
  | [_] => by simp [groups4]
  | [_, _] => by simp [groups4]
  | [_, _, _] => by simp [groups4]

theorem length_rows3 : ∀ xs : List α, (rows3 xs).length = xs.length / 3
  | a :: b :: c :: r => by
    rw [rows3, List.length_cons, length_rows3 r]
    simp only [List.length_cons]
    omega
  | [] => by simp [rows3]
  | [_] => by simp [rows3]
  | [_, _] => by simp [rows3]

/-- The per-point float32 round trip that binary write-then-read applies to
every coordinate triple. -/
def roundPt (enc : α → List ℕ) (dec : List ℕ → α) (p : Pt α) : Pt α :=
  (dec (enc p.1), dec (enc p.2.1), dec (enc p.2.2))

theorem firstOccur_map_of_inj [DecidableEq α] {f : α → α} {l : List α}
    (hinj : ∀ x ∈ l, ∀ y ∈ l, f x = f y → x = y) :
    firstOccur (l.map f) = (firstOccur l).map f := by
  induction l with
  | nil => rfl
  | cons a t ih =>
    rw [List.map_cons, firstOccur, firstOccur,
      ih (fun x hx y hy => hinj x (List.mem_cons_of_mem a hx)
        y (List.mem_cons_of_mem a hy)),
      List.filter_map, List.map_cons]
    refine congrArg _ (congrArg _ (List.filter_congr ?_))
    intro b hb
    have hbmem : b ∈ a :: t := List.mem_cons_of_mem a (mem_firstOccur.mp hb)
    have hamem : a ∈ a :: t := List.mem_cons_self a t
    simp only [Function.comp_apply, decide_eq_decide]
    constructor
    · intro hne hEq
      exact hne (hEq ▸ rfl)
    · intro hne hEq
      exact hne (hinj b hbmem a hamem hEq)

theorem firstIdx_map_of_inj [DecidableEq α] {f : α → α} {l : List α} {a : α}
    (ha : a ∈ l) (hinj : ∀ x ∈ l, ∀ y ∈ l, f x = f y → x = y) :
    firstIdx (f a) (l.map f) = firstIdx a l := by
  induction l with
  | nil => cases ha
  | cons b t ih =>
    by_cases hb : b = a
    · subst hb
      simp [firstIdx]
    · have hfb : f b ≠ f a := fun hEq =>
        hb (hinj b (List.mem_cons_self b t) a ha hEq)
      have hat : a ∈ t := by
        rcases List.mem_cons.mp ha with h1 | h1
        · exact absurd h1.symm hb
        · exact h1
      rw [List.map_cons, firstIdx, firstIdx, if_neg hb, if_neg hfb,
        ih hat (fun x hx y hy => hinj x (List.mem_cons_of_mem b hx)
          y (List.mem_cons_of_mem b hy))]

theorem cellsTriangles_pair (tris : List (ℕ × ℕ × ℕ)) :
    cellsTriangles [(triangleKey, tris)] = tris := rfl

theorem header_readline (rest : List ℕ) :
    readLineBytes (header81 ++ rest) = (header81, rest) := by
  have hform : header81 ++ rest
      = (strBytes headerMsg
          ++ List.replicate (80 - (strBytes headerMsg).length) 88)
        ++ (10 :: rest) := by
    simp [header81, List.append_assoc]
  rw [hform, readLineBytes_append (by decide)]
  refine congrArg₂ Prod.mk ?_ rfl
  simp [header81, List.append_assoc]

theorem header_take5_ne_solid : header81.take 5 ≠ solidBytes := by decide

theorem length_u32enc (n : ℕ) : (u32enc n).length = 4 := rfl

theorem npFromstringU32_u32enc {n : ℕ} (h : n < 2 ^ 32) :
    npFromstringU32 (u32enc n) = .ok n := by
  rw [npFromstringU32, if_neg (by simp [u32enc]), if_neg (by simp [u32enc]),
    u32dec_u32enc h]

/-- Unrolling the binary reader's loop over a list of complete 50-byte
records (12 arbitrary normal bytes, 36 vertex bytes, the 2 zero attribute
bytes), with an arbitrary continuation stream. -/
theorem readTriangles_records {α : Type} (dec : List ℕ → α)
    (recs : List (List ℕ × List ℕ)) (m : ℕ) (tail : List ℕ)
    (h12 : ∀ h ∈ recs, h.1.length = 12) (h36 : ∀ h ∈ recs, h.2.length = 36) :
    readTriangles dec (recs.length + m)
        ((recs.map (fun h => h.1 ++ (h.2 ++ [0, 0]))).flatten ++ tail)
      = match readTriangles dec m tail with
        | .error e => .error e
        | .ok rest =>
            .ok (recs.map (fun h => rows3 ((groups4 h.2).map dec)) ++ rest) := by
  induction recs with
  | nil =>
    simp only [List.length_nil, Nat.zero_add, List.map_nil, List.flatten_nil,
      List.nil_append]
    cases readTriangles dec m tail <;> simp
  | cons h hs ih =>
    have h12h := h12 h (List.mem_cons_self h hs)
    have h36h := h36 h (List.mem_cons_self h hs)
    have h12t : ∀ x ∈ hs, x.1.length = 12 :=
      fun x hx => h12 x (List.mem_cons_of_mem h hx)
    have h36t : ∀ x ∈ hs, x.2.length = 36 :=
      fun x hx => h36 x (List.mem_cons_of_mem h hx)
    have hlen : (h :: hs).length + m = (hs.length + m) + 1 := by
      rw [List.length_cons]
      omega
    rw [hlen, List.map_cons, List.flatten_cons, readTriangles]
    simp only [List.append_assoc]
    rw [drop_append_of_length h12h, take_append_of_length h36h,
      drop_append_of_length h36h,
      drop_append_of_length (show ([0, 0] : List ℕ).length = 2 from rfl)]
    have hfs : npFromstringF32 dec h.2 = .ok ((groups4 h.2).map dec) := by
      rw [npFromstringF32, if_neg (by rw [h36h]; omega),
        if_neg (by rw [h36h]; omega)]
    rw [hfs]
    dsimp only
    have hlen9 : ((groups4 h.2).map dec).length = 9 := by
      rw [List.length_map, length_groups4, h36h]
    have hrs : npReshape3 ((groups4 h.2).map dec)
        = .ok (rows3 ((groups4 h.2).map dec)) := by
      rw [npReshape3, if_pos (by rw [hlen9])]
    rw [hrs]
    dsimp only
    rw [ih h12t h36t]
    cases readTriangles dec m tail <;> simp

variable {α : Type}

theorem encBlocks_length {enc : α → List ℕ} (henc : ∀ x, (enc x).length = 4)
    {f : List (Pt α)} (hf : f.length = 3) :
    ((f.map (fun p => enc p.1 ++ enc p.2.1 ++ enc p.2.2)).flatten).length = 36 := by
  rcases List.length_eq_three.mp hf with ⟨a, b, c, rfl⟩
  simp [henc]

theorem decode_blocks {enc : α → List ℕ} {dec : List ℕ → α}
    (henc : ∀ x, (enc x).length = 4) :
    ∀ f : List (Pt α),
      rows3 ((groups4
          ((f.map (fun p => enc p.1 ++ enc p.2.1 ++ enc p.2.2)).flatten)).map dec)
        = f.map (roundPt enc dec)
  | [] => rfl
  | p :: f => by
    have hsplit : ((p :: f).map
          (fun p => enc p.1 ++ enc p.2.1 ++ enc p.2.2)).flatten
        = enc p.1 ++ (enc p.2.1 ++ (enc p.2.2
            ++ (f.map (fun p => enc p.1 ++ enc p.2.1 ++ enc p.2.2)).flatten)) := by
      simp [List.append_assoc]
    rw [hsplit, groups4_append (henc _), groups4_append (henc _),
      groups4_append (henc _), List.map_cons, List.map_cons, List.map_cons,
      rows3, decode_blocks henc f]
    rfl

theorem length_triPoints [Inhabited α] (points : List (Pt α)) (t : ℕ × ℕ × ℕ) :
    (triPoints points t).length = 3 := rfl

theorem map_recordBytes_eq (enc : α → List ℕ) (nrm : List (Pt α) → List ℕ)
    (fs : List (List (Pt α))) :
    fs.map (recordBytes enc nrm)
      = (fs.map (fun f => (nrm f,
          (f.map (fun p => enc p.1 ++ enc p.2.1 ++ enc p.2.2)).flatten))).map
            (fun h => h.1 ++ (h.2 ++ [0, 0])) := by
  rw [List.map_map]
  refine List.map_congr_left (fun f _ => ?_)
  simp only [Function.comp_apply, recordBytes, List.append_assoc]

theorem solidBytes_length : solidBytes.length = 5 := by decide

theorem ten_not_mem_solid : (10 : ℕ) ∉ solidBytes := by decide

theorem take5_append_ten {line : List ℕ} (h10 : 10 ∉ line) :
    ((line ++ [10]).take 5 = solidBytes) ↔ (line.take 5 = solidBytes) := by
  rcases Nat.lt_or_ge line.length 5 with h | h
  · constructor
    · intro hEq
      exfalso
      have hall : (line ++ [10]).take 5 = line ++ [10] :=
        List.take_of_length_le
          (by rw [List.length_append, List.length_singleton]; omega)
      rw [hall] at hEq
      apply ten_not_mem_solid
      rw [← hEq]
      exact List.mem_append_right _ (List.mem_cons_self _ _)
    · intro hEq
      exfalso
      have h1 : line.take 5 = line := List.take_of_length_le (by omega)
      rw [h1] at hEq
      have hlen := congrArg List.length hEq
      rw [solidBytes_length] at hlen
      omega
  · rw [List.take_append_of_le_length h]

theorem read_ascii_of_loop_error [LinearOrder α] [Inhabited α]
    {pf : List ℕ → α} {s : List ℕ} {e : PyErr}
    (h : readSolidLoop pf s = .error e) : read_ascii pf s = .error e := by
  rw [read_ascii, h]

theorem read_ascii_data_empty [LinearOrder α] [Inhabited α]
    {pf : List ℕ → α} {s : List ℕ} {res : ReadResult α}
    (h : read_ascii pf s = .ok res) :
    res.2.2.1 = [] ∧ res.2.2.2.1 = [] ∧ res.2.2.2.2 = [] := by
  rw [read_ascii] at h
  split at h
  · cases h
  · split at h
    · cases h
    · rw [Except.ok.injEq] at h
      subst h
      exact ⟨rfl, rfl, rfl⟩

theorem read_binary_data_empty [LinearOrder α] [Inhabited α]
    {dec : List ℕ → α} {s : List ℕ} {res : ReadResult α}
    (h : read_binary dec s = .ok res) :
    res.2.2.1 = [] ∧ res.2.2.2.1 = [] ∧ res.2.2.2.2 = [] := by
  rw [read_binary] at h
  split at h
  · cases h
  · split at h
    · cases h
    · split at h
      · cases h
      · rw [Except.ok.injEq] at h
        subst h
        exact ⟨rfl, rfl, rfl⟩

/-- Canonical well-formed lines used as fixed context around a single
offending line when exercising the ASCII parser's assertions. -/
def facetLine : List ℕ := strBytes ("facet normal 0 0 1")

def outerLine : List ℕ := strBytes (" outer loop")

def vertexLineC : List ℕ := strBytes ("  vertex 1 2 3")

def endloopLine : List ℕ := strBytes (" endloop")

theorem readSolidLoop_error_head [LinearOrder α] [Inhabited α]
    {pf : List ℕ → α} {L rest : List ℕ} (h10 : 10 ∉ L)
    (hns : (L ++ [10]).take 8 ≠ endsolidBytes)
    (hnf : (stripBytes (L ++ [10])).take 5 ≠ facetBytes) :
    readSolidLoop pf (L ++ 10 :: rest) = .error .assertionError := by
  rw [readSolidLoop, readLineBytes_append h10]
  dsimp only
  rw [dif_neg hns, dif_pos hnf]

theorem readSolidLoop_facet_error [LinearOrder α] [Inhabited α]
    {pf : List ℕ → α} {s : List ℕ} {e : PyErr}
    (hf : read_facet pf s = .error e) :
    readSolidLoop pf (facetLine ++ 10 :: s) = .error e := by
  rw [readSolidLoop, readLineBytes_append (by decide)]
  dsimp only
  rw [dif_neg (by decide), dif_neg (by decide), hf]

theorem readSolidLoop_endfacet_error [LinearOrder α] [Inhabited α]
    {pf : List ℕ → α} {s L rest : List ℕ} {f : List (Pt α)}
    (hf : read_facet pf s = .ok (f, L ++ 10 :: rest)) (h10 : 10 ∉ L)
    (hne : stripBytes (L ++ [10]) ≠ endfacetBytes) :
    readSolidLoop pf (facetLine ++ 10 :: s) = .error .assertionError := by
  rw [readSolidLoop, @readLineBytes_append facetLine s (by decide)]
  dsimp only
  rw [dif_neg (by decide), dif_neg (by decide), hf]
  dsimp only
  rw [@readLineBytes_append L rest h10]
  dsimp only
  rw [dif_pos hne]

theorem read_facet_outer_error {pf : List ℕ → α} {L rest : List ℕ}
    (h10 : 10 ∉ L) (hol : stripBytes (L ++ [10]) ≠ outerLoopBytes) :
    read_facet pf (L ++ 10 :: rest) = .error .assertionError := by
  rw [read_facet]
  dsimp only
  rw [readLineBytes_append h10]
  dsimp only
  rw [if_pos hol]

theorem readVertexLine_bad {pf : List ℕ → α} {L rest : List ℕ} (h10 : 10 ∉ L)
    (hbad : (splitWs (L ++ [10])).length ≠ 4
      ∨ (splitWs (L ++ [10])).getD 0 [] ≠ vertexBytes) :
    readVertexLine pf (L ++ 10 :: rest) = .error .assertionError := by
  rw [readVertexLine]
  rw [readLineBytes_append h10]
  dsimp only
  by_cases h4 : (splitWs (L ++ [10])).length ≠ 4
  · rw [if_pos h4]
  · rw [if_neg h4]
    rcases hbad with hb | hb
    · exact absurd hb h4
    · rw [if_pos hb]

theorem readVertexLine_canonical (pf : List ℕ → α) (X : List ℕ) :
    readVertexLine pf (vertexLineC ++ 10 :: X)
      = .ok ((pf [49], pf [50], pf [51]), X) := rfl

theorem read_facet_vertex_error {pf : List ℕ → α} {L rest : List ℕ}
    (h10 : 10 ∉ L)
    (hbad : (splitWs (L ++ [10])).length ≠ 4
      ∨ (splitWs (L ++ [10])).getD 0 [] ≠ vertexBytes) :
    read_facet pf (outerLine ++ 10 :: (L ++ 10 :: rest))
      = .error .assertionError := by
  rw [read_facet]
  dsimp only
  rw [@readLineBytes_append outerLine (L ++ 10 :: rest) (by decide)]
  dsimp only
  rw [if_neg (by decide), readVertexLine_bad h10 hbad]

theorem read_facet_endloop_error {pf : List ℕ → α} {L rest : List ℕ}
    (h10 : 10 ∉ L) (hel : stripBytes (L ++ [10]) ≠ endloopBytes) :
    read_facet pf (outerLine ++ 10 :: (vertexLineC ++ 10 :: (vertexLineC ++ 10 ::
      (vertexLineC ++ 10 :: (L ++ 10 :: rest))))) = .error .assertionError := by
  rw [read_facet]
  dsimp only
  rw [@readLineBytes_append outerLine
    (vertexLineC ++ 10 :: (vertexLineC ++ 10 :: (vertexLineC ++ 10 ::
      (L ++ 10 :: rest)))) (by decide)]
  dsimp only
  rw [if_neg (by decide),
    readVertexLine_canonical pf
      (vertexLineC ++ 10 :: (vertexLineC ++ 10 :: (L ++ 10 :: rest)))]
  dsimp only
  rw [readVertexLine_canonical pf (vertexLineC ++ 10 :: (L ++ 10 :: rest))]
  dsimp only
  rw [readVertexLine_canonical pf (L ++ 10 :: rest)]
  dsimp only
  rw [@readLineBytes_append L rest h10]
  dsimp only
  rw [if_pos hel]

theorem read_facet_canonical (pf : List ℕ → α) (rest : List ℕ) :
    read_facet pf (outerLine ++ 10 :: (vertexLineC ++ 10 :: (vertexLineC ++ 10 ::
        (vertexLineC ++ 10 :: (endloopLine ++ 10 :: rest)))))
      = .ok ([(pf [49], pf [50], pf [51]), (pf [49], pf [50], pf [51]),
          (pf [49], pf [50], pf [51])], rest) := rfl

end Support

section Claims

variable {α : Type} [LinearOrder α] [Inhabited α]

/-- Claim C1: for every (non-empty) ordered sequence of input facets, the
Geometry Builder orders the unique vertex list by first appearance in the
flattened point sequence; in particular, for facets `[(A,B,C), (B,D,E)]`
with `A,B,C,D,E` pairwise distinct, the vertex list is exactly
`[A,B,C,D,E]`.  (On an empty facet sequence the builder raises instead of
returning a vertex list — that slip is claim C4.) -/
theorem stl_C1_first_occurrence_order (facets : List (List (Pt α)))
    (hne : facets ≠ []) (h3 : ∀ l ∈ facets, l.length = 3) :
    (∃ tris, data_from_facets facets = .ok (firstOccur facets.flatten, tris))
  ∧ ∀ A B C D E : Pt α, A ≠ B → A ≠ C → A ≠ D → A ≠ E → B ≠ C → B ≠ D →
      B ≠ E → C ≠ D → C ≠ E → D ≠ E →
      data_from_facets [[A, B, C], [B, D, E]]
        = .ok ([A, B, C, D, E], [(0, 1, 2), (1, 3, 4)]) := by
  constructor
  · refine ⟨_, data_from_facets_eq facets hne ?_⟩
    rw [flatten_length_of_three h3]
    omega
  · intro A B C D E hAB hAC hAD hAE hBC hBD hBE hCD hCE hDE
    have hBA := hAB.symm
    have hCA := hAC.symm
    have hDA := hAD.symm
    have hEA := hAE.symm
    have hCB := hBC.symm
    have hDB := hBD.symm
    have hEB := hBE.symm
    have hDC := hCD.symm
    have hEC := hCE.symm
    have hED := hDE.symm
    have hflat : ([[A, B, C], [B, D, E]] : List (List (Pt α))).flatten
        = [A, B, C, B, D, E] := by simp
    have hBDE : firstOccur [B, D, E] = [B, D, E] :=
      firstOccur_of_nodup (by simp [List.nodup_cons, hBD, hBE, hDE])
    have hCBDE : firstOccur [C, B, D, E] = [C, B, D, E] := by
      rw [firstOccur, hBDE]
      simp [decide_not, hBC, hDC, hEC]
    have hBCBDE : firstOccur [B, C, B, D, E] = [B, C, D, E] := by
      rw [firstOccur, hCBDE]
      simp [decide_not, hCB, hDB, hEB]
    have hfo : firstOccur [A, B, C, B, D, E] = [A, B, C, D, E] := by
      rw [firstOccur, hBCBDE]
      simp [decide_not, hBA, hCA, hDA, hEA]
    have hidx : ([A, B, C, B, D, E] : List (Pt α)).map
        (fun p => firstIdx p [A, B, C, D, E]) = [0, 1, 2, 1, 3, 4] := by
      simp [firstIdx, hAB, hAC, hAD, hAE, hBC, hBD, hBE, hCD, hCE, hDE]
    have h := data_from_facets_eq [[A, B, C], [B, D, E]] (by simp) (by simp)
    rw [hflat, hfo, hidx] at h
    exact h

/-- Witness for C1 at concrete integer facets. -/
theorem stl_C1_witness :
    (∃ tris, data_from_facets
        [[((0 : ℤ), (0 : ℤ), (0 : ℤ)), (1, 0, 0), (2, 0, 0)],
         [(1, 0, 0), (3, 0, 0), (4, 0, 0)]]
      = .ok (firstOccur
          ([[((0 : ℤ), (0 : ℤ), (0 : ℤ)), (1, 0, 0), (2, 0, 0)],
            [(1, 0, 0), (3, 0, 0), (4, 0, 0)]] : List (List (Pt ℤ))).flatten, tris))
  ∧ data_from_facets
        [[((0 : ℤ), (0 : ℤ), (0 : ℤ)), (1, 0, 0), (2, 0, 0)],
         [(1, 0, 0), (3, 0, 0), (4, 0, 0)]]
      = .ok ([(0, 0, 0), (1, 0, 0), (2, 0, 0), (3, 0, 0), (4, 0, 0)],
          [(0, 1, 2), (1, 3, 4)]) := by
  have h := stl_C1_first_occurrence_order
    [[((0 : ℤ), (0 : ℤ), (0 : ℤ)), (1, 0, 0), (2, 0, 0)],
     [(1, 0, 0), (3, 0, 0), (4, 0, 0)]] (by decide) (by decide)
  exact ⟨h.1, h.2 (0, 0, 0) (1, 0, 0) (2, 0, 0) (3, 0, 0) (4, 0, 0)
    (by decide) (by decide) (by decide) (by decide) (by decide) (by decide)
    (by decide) (by decide) (by decide) (by decide)⟩

/-- Claim C2: for every non-empty facet sequence, the built mesh has only
in-range triangle indices, pairwise distinct vertices, triangles in input
facet order, and looking each triangle's indices up in the vertex list
reproduces the input facet's coordinates exactly. -/
theorem stl_C2_mesh_invariants (facets : List (List (Pt α)))
    (hne : facets ≠ []) (h3 : ∀ l ∈ facets, l.length = 3) :
    ∃ points tris,
      data_from_facets facets = .ok (points, tris)
    ∧ points.Nodup
    ∧ tris.length = facets.length
    ∧ (∀ t ∈ tris, t.1 < points.length ∧ t.2.1 < points.length
        ∧ t.2.2 < points.length)
    ∧ tris.map (fun t => [points.getD t.1 default, points.getD t.2.1 default,
        points.getD t.2.2 default]) = facets := by
  have hlen : facets.flatten.length % 3 = 0 := by
    rw [flatten_length_of_three h3]
    omega
  have heq := data_from_facets_eq facets hne hlen
  set fo := firstOccur facets.flatten with hfo
  have hmem3 : ∀ l ∈ facets, ∀ i < 3, l.getD i default ∈ facets.flatten := by
    intro l hl i hi
    refine List.mem_flatten.mpr ⟨l, hl, ?_⟩
    exact getD_mem_of_lt (by rw [h3 l hl]; exact hi) default
  have hgroup := group3_map_flatten (fun p => firstIdx p fo) facets h3
  refine ⟨fo, group3 (facets.flatten.map (fun p => firstIdx p fo)), heq,
    nodup_firstOccur _, ?_, ?_, ?_⟩
  · rw [hgroup, List.length_map]
  · intro t ht
    rw [hgroup] at ht
    rcases List.mem_map.mp ht with ⟨l, hl, rfl⟩
    refine ⟨?_, ?_, ?_⟩ <;>
      exact firstIdx_lt_length (mem_firstOccur.mpr
        (hmem3 l hl _ (by omega)))
  · rw [hgroup, List.map_map]
    have hid : ∀ l ∈ facets,
        ((fun t : ℕ × ℕ × ℕ => [fo.getD t.1 default, fo.getD t.2.1 default,
            fo.getD t.2.2 default]) ∘
          (fun l => (firstIdx (l.getD 0 default) fo,
            firstIdx (l.getD 1 default) fo, firstIdx (l.getD 2 default) fo))) l
          = l := by
      intro l hl
      simp only [Function.comp_apply]
      rw [getD_firstIdx (mem_firstOccur.mpr (hmem3 l hl 0 (by omega))) default,
        getD_firstIdx (mem_firstOccur.mpr (hmem3 l hl 1 (by omega))) default,
        getD_firstIdx (mem_firstOccur.mpr (hmem3 l hl 2 (by omega))) default]
      exact eq_of_length_three (h3 l hl) default
    calc facets.map _ = facets.map id := List.map_congr_left hid
      _ = facets := List.map_id facets

/-- Witness for C2 at concrete integer facets sharing a vertex. -/
theorem stl_C2_witness :
    ∃ points tris,
      data_from_facets
          [[((0 : ℤ), (0 : ℤ), (0 : ℤ)), (1, 0, 0), (0, 1, 0)],
           [(0, 1, 0), (1, 0, 0), (1, 1, 0)]]
        = .ok (points, tris)
    ∧ points.Nodup
    ∧ tris.length = ([[((0 : ℤ), (0 : ℤ), (0 : ℤ)), (1, 0, 0), (0, 1, 0)],
           [(0, 1, 0), (1, 0, 0), (1, 1, 0)]] : List (List (Pt ℤ))).length
    ∧ (∀ t ∈ tris, t.1 < points.length ∧ t.2.1 < points.length
        ∧ t.2.2 < points.length)
    ∧ tris.map (fun t => [points.getD t.1 default, points.getD t.2.1 default,
        points.getD t.2.2 default])
      = [[((0 : ℤ), (0 : ℤ), (0 : ℤ)), (1, 0, 0), (0, 1, 0)],
         [(0, 1, 0), (1, 0, 0), (1, 1, 0)]] :=
  stl_C2_mesh_invariants
    [[((0 : ℤ), (0 : ℤ), (0 : ℤ)), (1, 0, 0), (0, 1, 0)],
     [(0, 1, 0), (1, 0, 0), (1, 1, 0)]] (by decide) (by decide)

/-- Claim C4 (the code slip): on zero facets both the Geometry Builder and
the binary read path raise `ValueError` (from `numpy.concatenate` of an
empty sequence) instead of returning an empty mesh: `data_from_facets []`
errors, and so does `_read_binary` on the 4-byte stream with triangle
count 0. -/
theorem stl_C4_empty_input_raises :
    data_from_facets ([] : List (List (Pt ℤ))) = .error .valueError
  ∧ read_binary (fun b => ((b.getD 0 0 : ℕ) : ℤ)) (u32enc 0) = .error .valueError := by
  exact ⟨rfl, by decide⟩

/-- Claim C3 (amended): binary write-then-read applies the float32 round
trip `roundPt enc dec` to the vertex list and is the identity on the
triangle index triples, provided the mesh is non-empty with in-range
indices and a triangle count below `2^32`, the vertex list is in the
builder's canonical form (equal to the first-occurrence dedup of its own
flattened triangle point stream — in particular every vertex is used), and
float32 rounding keeps the vertices pairwise distinct.  As literally
stated the claim is false — see the counterexample. -/
theorem stl_C3_binary_roundtrip_amended (enc : α → List ℕ) (dec : List ℕ → α)
    (nrm : List (Pt α) → List ℕ) (pf : List ℕ → α)
    (points : List (Pt α)) (tris : List (ℕ × ℕ × ℕ))
    (henc : ∀ x, (enc x).length = 4) (hnrm : ∀ f, (nrm f).length = 12)
    (hne : tris ≠ []) (hcnt : tris.length < 2 ^ 32)
    (hcanon : points = firstOccur ((tris.map (triPoints points)).flatten))
    (hinj : ∀ p ∈ points, ∀ q ∈ points,
      roundPt enc dec p = roundPt enc dec q → p = q)
    (hvalid : ∀ t ∈ tris, t.1 < points.length ∧ t.2.1 < points.length
        ∧ t.2.2 < points.length) :
    read_buffer pf dec (write_binary enc nrm points [(triangleKey, tris)])
      = .ok (points.map (roundPt enc dec), tris, [], [], []) := by
  set r := roundPt enc dec with hr
  set fs := tris.map (triPoints points) with hfs
  set flat := fs.flatten with hflat
  have hwb : write_binary enc nrm points [(triangleKey, tris)]
      = header81 ++ (u32enc tris.length
          ++ (fs.map (recordBytes enc nrm)).flatten) := by
    simp only [write_binary, cellsTriangles_pair, List.append_assoc, ← hfs]
  rw [hwb]
  simp only [read_buffer, header_readline]
  rw [if_neg header_take5_ne_solid]
  rw [read_binary, take_append_of_length (length_u32enc _),
    npFromstringU32_u32enc hcnt]
  dsimp only
  rw [drop_append_of_length (length_u32enc _)]
  have hbody : (fs.map (recordBytes enc nrm)).flatten
      = ((fs.map (fun f => (nrm f,
          (f.map (fun p => enc p.1 ++ enc p.2.1 ++ enc p.2.2)).flatten))).map
            (fun h => h.1 ++ (h.2 ++ [0, 0]))).flatten ++ [] := by
    rw [map_recordBytes_eq enc nrm fs, List.append_nil]
  have h12 : ∀ h ∈ fs.map (fun f => (nrm f,
      (f.map (fun p => enc p.1 ++ enc p.2.1 ++ enc p.2.2)).flatten)),
      h.1.length = 12 := by
    intro h hh
    rcases List.mem_map.mp hh with ⟨f, _, rfl⟩
    exact hnrm f
  have h36 : ∀ h ∈ fs.map (fun f => (nrm f,
      (f.map (fun p => enc p.1 ++ enc p.2.1 ++ enc p.2.2)).flatten)),
      h.2.length = 36 := by
    intro h hh
    rcases List.mem_map.mp hh with ⟨f, hf, rfl⟩
    rcases List.mem_map.mp hf with ⟨t, _, rfl⟩
    exact encBlocks_length henc rfl
  have hcount : tris.length = (fs.map (fun f => (nrm f,
      (f.map (fun p => enc p.1 ++ enc p.2.1 ++ enc p.2.2)).flatten))).length + 0 := by
    rw [List.length_map, hfs, List.length_map]
    omega
  rw [hbody, hcount, readTriangles_records dec _ 0 [] h12 h36]
  have h0 : readTriangles dec 0 ([] : List ℕ) = .ok ([] : List (List (Pt α))) := rfl
  rw [h0]
  dsimp only
  have hfacets : (fs.map (fun f => (nrm f,
        (f.map (fun p => enc p.1 ++ enc p.2.1 ++ enc p.2.2)).flatten))).map
          (fun h => rows3 ((groups4 h.2).map dec)) ++ []
      = fs.map (fun f => f.map r) := by
    rw [List.append_nil, List.map_map]
    apply List.map_congr_left
    intro f _
    exact decode_blocks henc f
  rw [hfacets]
  have hlen3 : ∀ l ∈ fs.map (fun f => f.map r), l.length = 3 := by
    intro l hl
    rcases List.mem_map.mp hl with ⟨f, hf, rfl⟩
    rcases List.mem_map.mp hf with ⟨t, _, rfl⟩
    rfl
  have hne' : fs.map (fun f => f.map r) ≠ [] := by
    rw [hfs]
    simp only [ne_eq, List.map_eq_nil_iff]
    exact hne
  have h3' : (fs.map (fun f => f.map r)).flatten.length % 3 = 0 := by
    rw [flatten_length_of_three hlen3]
    omega
  rw [data_from_facets_eq _ hne' h3']
  dsimp only
  have hflat' : (fs.map (fun f => f.map r)).flatten = flat.map r := by
    rw [hflat, List.map_flatten]
  have hmemflat : ∀ p ∈ flat, p ∈ points := by
    intro p hp
    rw [hcanon]
    exact mem_firstOccur.mpr hp
  have hinjflat : ∀ x ∈ flat, ∀ y ∈ flat, r x = r y → x = y :=
    fun x hx y hy => hinj x (hmemflat x hx) y (hmemflat y hy)
  have hinjfo : ∀ x ∈ firstOccur flat, ∀ y ∈ firstOccur flat, r x = r y → x = y := by
    rw [← hcanon]
    exact hinj
  have hfo' : firstOccur ((fs.map (fun f => f.map r)).flatten) = points.map r := by
    rw [hflat', firstOccur_map_of_inj hinjflat, ← hcanon]
  have hnodup : points.Nodup := by
    rw [hcanon]
    exact nodup_firstOccur _
  have hcells1 : (fs.map (fun f => f.map r)).flatten.map
        (fun p => firstIdx p (firstOccur ((fs.map (fun f => f.map r)).flatten)))
      = flat.map (fun p => firstIdx p points) := by
    rw [hflat', firstOccur_map_of_inj hinjflat, List.map_map]
    apply List.map_congr_left
    intro q hq
    dsimp only [Function.comp_apply]
    rw [firstIdx_map_of_inj (mem_firstOccur.mpr hq) hinjfo, ← hcanon]
  have hcells2 : group3 (flat.map (fun p => firstIdx p points)) = tris := by
    rw [hflat, hfs, group3_map_flatten _ _ (fun l hl => by
      rcases List.mem_map.mp hl with ⟨t, _, rfl⟩
      rfl)]
    rw [List.map_map]
    have hpoint : ∀ t ∈ tris,
        ((fun l => (firstIdx (l.getD 0 default) points,
            firstIdx (l.getD 1 default) points,
            firstIdx (l.getD 2 default) points)) ∘ triPoints points) t = t := by
      intro t ht
      obtain ⟨t1, t2, t3⟩ := t
      obtain ⟨hv1, hv2, hv3⟩ := hvalid (t1, t2, t3) ht
      dsimp only [Function.comp_apply, triPoints]
      rw [List.getD_cons_zero, List.getD_cons_succ, List.getD_cons_zero,
        List.getD_cons_succ, List.getD_cons_succ, List.getD_cons_zero,
        firstIdx_getD hnodup hv1, firstIdx_getD hnodup hv2,
        firstIdx_getD hnodup hv3]
    calc tris.map _ = tris.map id := List.map_congr_left hpoint
      _ = tris := List.map_id tris
  rw [hcells1, hcells2, hfo']

/-- Counterexample to C3 as stated: a mesh with pairwise distinct integer
vertices (exactly representable in float32, so rounding is the identity)
whose vertex list is not in first-occurrence order of its triangle stream;
the binary round trip returns a reordered vertex list and a different
index triple, not the original mesh. -/
theorem stl_C3_counterexample :
    read_buffer (fun _ => (0 : ℤ)) (fun b => ((b.getD 0 0 : ℕ) : ℤ))
        (write_binary (fun x => [x.toNat % 256, 0, 0, 0])
          (fun _ => List.replicate 12 0)
          [((0 : ℤ), (0 : ℤ), (0 : ℤ)), (1, 0, 0), (2, 0, 0)]
          [(triangleKey, [(2, 1, 0)])])
      = .ok ([((2 : ℤ), (0 : ℤ), (0 : ℤ)), (1, 0, 0), (0, 0, 0)],
          [(0, 1, 2)], [], [], [])
  ∧ read_buffer (fun _ => (0 : ℤ)) (fun b => ((b.getD 0 0 : ℕ) : ℤ))
        (write_binary (fun x => [x.toNat % 256, 0, 0, 0])
          (fun _ => List.replicate 12 0)
          [((0 : ℤ), (0 : ℤ), (0 : ℤ)), (1, 0, 0), (2, 0, 0)]
          [(triangleKey, [(2, 1, 0)])])
      ≠ .ok ([((0 : ℤ), (0 : ℤ), (0 : ℤ)), (1, 0, 0), (2, 0, 0)],
          [(2, 1, 0)], [], [], []) := by
  exact ⟨by decide, by decide⟩

/-- Witness for the amended C3 at a concrete canonical integer mesh. -/
theorem stl_C3_witness :
    read_buffer (fun _ => (0 : ℤ)) (fun b => ((b.getD 0 0 : ℕ) : ℤ))
        (write_binary (fun x => [x.toNat % 256, 0, 0, 0])
          (fun _ => List.replicate 12 0)
          [((0 : ℤ), (0 : ℤ), (0 : ℤ)), (1, 0, 0), (2, 0, 0)]
          [(triangleKey, [(0, 1, 2)])])
      = .ok (([((0 : ℤ), (0 : ℤ), (0 : ℤ)), (1, 0, 0), (2, 0, 0)]).map
            (roundPt (fun x => [x.toNat % 256, 0, 0, 0])
              (fun b => ((b.getD 0 0 : ℕ) : ℤ))),
          [(0, 1, 2)], [], [], []) :=
  stl_C3_binary_roundtrip_amended _ _ _ _
    [((0 : ℤ), (0 : ℤ), (0 : ℤ)), (1, 0, 0), (2, 0, 0)] [(0, 1, 2)]
    (fun _ => rfl) (fun _ => rfl) (by decide) (by decide) (by decide)
    (by decide) (by decide)

/-- Claim C5 (amended): `write` fails (with the assertion that stands for
`UnsupportedDataError`) before producing any bytes whenever the point-data
or field-data mapping is non-empty or the cell key list is not exactly
`['triangle']`; the cell-data mapping, contrary to the claim, is never
examined — `write` returns the same result for every `cell_data` value. -/
theorem stl_C5_write_rejection_amended (enc : α → List ℕ)
    (nrm : List (Pt α) → List ℕ) (fmt : α → List ℕ)
    (nrmA : List (Pt α) → List ℕ) (points : List (Pt α))
    (cells : List (String × List (ℕ × ℕ × ℕ)))
    (point_data cell_data field_data : List String) (flag : Bool)
    (h : point_data ≠ [] ∨ field_data ≠ []
        ∨ cells.map Prod.fst ≠ [triangleKey]) :
    write enc nrm fmt nrmA points cells point_data cell_data field_data flag
      = .error .assertionError
  ∧ ∀ cell_data2,
      write enc nrm fmt nrmA points cells point_data cell_data field_data flag
        = write enc nrm fmt nrmA points cells point_data cell_data2
            field_data flag := by
  constructor
  · rw [write]
    rcases h with h1 | h2 | h3
    · rw [if_pos h1]
    · by_cases h1 : point_data ≠ []
      · rw [if_pos h1]
      · rw [if_neg h1, if_pos h2]
    · by_cases h1 : point_data ≠ []
      · rw [if_pos h1]
      · rw [if_neg h1]
        by_cases h2 : field_data ≠ []
        · rw [if_pos h2]
        · rw [if_neg h2, if_pos h3]
  · intro cell_data2
    rfl

/-- Counterexample to C5 as stated: a call with a non-empty cell-data
mapping (and everything else valid) succeeds instead of failing. -/
theorem stl_C5_counterexample :
    isOkE (write (fun x : ℤ => [x.toNat % 256, 0, 0, 0])
      (fun _ => List.replicate 12 0) (fun _ => [48]) (fun _ => [48])
      [((0 : ℤ), (0 : ℤ), (0 : ℤ)), (1, 0, 0), (2, 0, 0)]
      [(triangleKey, [(0, 1, 2)])] [] ["gmsh:ref"] [] true) = true := by
  decide

/-- Witness for the amended C5: non-empty point data is rejected, and the
result is insensitive to cell data. -/
theorem stl_C5_witness :
    (write (fun x : ℤ => [x.toNat % 256, 0, 0, 0])
        (fun _ => List.replicate 12 0) (fun _ => [48]) (fun _ => [48])
        [((0 : ℤ), (0 : ℤ), (0 : ℤ))] [(triangleKey, [(0, 0, 0)])]
        ["p"] [] [] true
      = .error .assertionError)
  ∧ ∀ cell_data2,
      write (fun x : ℤ => [x.toNat % 256, 0, 0, 0])
        (fun _ => List.replicate 12 0) (fun _ => [48]) (fun _ => [48])
        [((0 : ℤ), (0 : ℤ), (0 : ℤ))] [(triangleKey, [(0, 0, 0)])]
        ["p"] [] [] true
      = write (fun x : ℤ => [x.toNat % 256, 0, 0, 0])
        (fun _ => List.replicate 12 0) (fun _ => [48]) (fun _ => [48])
        [((0 : ℤ), (0 : ℤ), (0 : ℤ))] [(triangleKey, [(0, 0, 0)])]
        ["p"] cell_data2 [] true :=
  stl_C5_write_rejection_amended _ _ _ _ _ _ _ _ _ _ (Or.inl (by decide))

/-- Claim C6 (amended): the binary parser performs no truncation check.  A
stream that announces `N ≥ 1` triangles but carries only `4 + 50*N - 2`
bytes — every record complete except that the final 2 attribute-count
bytes are missing — parses successfully instead of failing with a
truncated-file `ParseError` (truncations that cut into the vertex data
fail with untyped `ValueError`s from numpy, also not a `ParseError`). -/
theorem stl_C6_truncation_amended (dec : List ℕ → α)
    (recs : List (List ℕ × List ℕ)) (lastRec : List ℕ × List ℕ)
    (hcnt : recs.length + 1 < 2 ^ 32)
    (h12 : ∀ h ∈ recs ++ [lastRec], h.1.length = 12)
    (h36 : ∀ h ∈ recs ++ [lastRec], h.2.length = 36) :
    isOkE (read_binary dec (u32enc (recs.length + 1)
      ++ ((recs.map (fun h => h.1 ++ (h.2 ++ [0, 0]))).flatten
          ++ (lastRec.1 ++ lastRec.2)))) = true := by
  have h12r : ∀ h ∈ recs, h.1.length = 12 :=
    fun h hh => h12 h (List.mem_append_left _ hh)
  have h36r : ∀ h ∈ recs, h.2.length = 36 :=
    fun h hh => h36 h (List.mem_append_left _ hh)
  have h12l : lastRec.1.length = 12 :=
    h12 lastRec (List.mem_append_right _ (List.mem_cons_self _ _))
  have h36l : lastRec.2.length = 36 :=
    h36 lastRec (List.mem_append_right _ (List.mem_cons_self _ _))
  rw [read_binary, take_append_of_length (length_u32enc _),
    npFromstringU32_u32enc hcnt]
  dsimp only
  rw [drop_append_of_length (length_u32enc _)]
  rw [show recs.length + 1 = recs.length + 1 from rfl,
    readTriangles_records dec recs 1 (lastRec.1 ++ lastRec.2) h12r h36r]
  have hlast : readTriangles dec 1 (lastRec.1 ++ lastRec.2)
      = .ok [rows3 ((groups4 lastRec.2).map dec)] := by
    have hd36 : lastRec.2.drop 36 = [] := by
      apply List.drop_eq_nil_of_le
      rw [h36l]
    have ht36 : lastRec.2.take 36 = lastRec.2 := by
      apply List.take_of_length_le
      rw [h36l]
    rw [readTriangles, drop_append_of_length h12l, ht36, hd36]
    have hfs : npFromstringF32 dec lastRec.2
        = .ok ((groups4 lastRec.2).map dec) := by
      rw [npFromstringF32, if_neg (by rw [h36l]; omega),
        if_neg (by rw [h36l]; omega)]
    rw [hfs]
    dsimp only
    have hrs : npReshape3 ((groups4 lastRec.2).map dec)
        = .ok (rows3 ((groups4 lastRec.2).map dec)) := by
      rw [npReshape3, if_pos (by rw [List.length_map, length_groups4, h36l])]
    rw [hrs]
    rfl
  rw [hlast]
  dsimp only
  have hlen3 : ∀ l ∈ recs.map (fun h => rows3 ((groups4 h.2).map dec))
      ++ [rows3 ((groups4 lastRec.2).map dec)], l.length = 3 := by
    intro l hl
    rcases List.mem_append.mp hl with hl | hl
    · rcases List.mem_map.mp hl with ⟨h, hh, rfl⟩
      rw [length_rows3, List.length_map, length_groups4, h36r h hh]
    · rcases List.mem_cons.mp hl with rfl | hl
      · rw [length_rows3, List.length_map, length_groups4, h36l]
      · cases hl
  have hne' : recs.map (fun h => rows3 ((groups4 h.2).map dec))
      ++ [rows3 ((groups4 lastRec.2).map dec)] ≠ [] := by
    simp
  have h3' : (recs.map (fun h => rows3 ((groups4 h.2).map dec))
      ++ [rows3 ((groups4 lastRec.2).map dec)]).flatten.length % 3 = 0 := by
    rw [flatten_length_of_three hlen3]
    omega
  rw [data_from_facets_eq _ hne' h3']
  rfl

/-- Counterexample to C6 as stated: a binary stream claiming 5 triangles
with only 252 bytes (fewer than 4 + 250) — the final attribute count is
cut off — succeeds, returning a mesh, instead of failing with a
`ParseError`. -/
theorem stl_C6_counterexample :
    read_binary (fun b => ((b.getD 0 0 : ℕ) : ℤ))
        (u32enc 5 ++ List.replicate 248 0)
      = .ok ([((0 : ℤ), (0 : ℤ), (0 : ℤ))],
          [(0, 0, 0), (0, 0, 0), (0, 0, 0), (0, 0, 0), (0, 0, 0)],
          [], [], []) := by
  decide

/-- Witness for the amended C6 at two concrete all-zero records. -/
theorem stl_C6_witness :
    isOkE (read_binary (fun b => ((b.getD 0 0 : ℕ) : ℤ))
      (u32enc 2 ++ (([(List.replicate 12 0, List.replicate 36 0)].map
          (fun h => h.1 ++ (h.2 ++ [0, 0]))).flatten
        ++ (List.replicate 12 0 ++ List.replicate 36 0)))) = true :=
  stl_C6_truncation_amended _ [(List.replicate 12 0, List.replicate 36 0)]
    (List.replicate 12 0, List.replicate 36 0) (by decide) (by decide)
    (by decide)

/-- Claim C9 (amended): the binary writer's output is the 80-byte padded
attribution message followed by a newline byte — an 81-byte preamble, not
the mandated 80-byte header — then the 4-byte little-endian triangle
count, then one 50-byte record per triangle (12 normal bytes, 36 vertex
bytes, 2 zero attribute bytes) with no padding in between. -/
theorem stl_C9_binary_layout_amended (enc : α → List ℕ)
    (nrm : List (Pt α) → List ℕ) (points : List (Pt α))
    (tris : List (ℕ × ℕ × ℕ)) (henc : ∀ x, (enc x).length = 4)
    (hnrm : ∀ f, (nrm f).length = 12) :
    write_binary enc nrm points [(triangleKey, tris)]
      = (strBytes headerMsg
          ++ List.replicate (80 - (strBytes headerMsg).length) 88)
        ++ [10] ++ u32enc tris.length
        ++ ((tris.map (triPoints points)).map (recordBytes enc nrm)).flatten
  ∧ (strBytes headerMsg
      ++ List.replicate (80 - (strBytes headerMsg).length) 88).length = 80
  ∧ (u32enc tris.length).length = 4
  ∧ ∀ t ∈ tris, (recordBytes enc nrm (triPoints points t)).length = 50 := by
  refine ⟨?_, by decide, rfl, ?_⟩
  · simp only [write_binary, cellsTriangles_pair, header81, List.append_assoc]
  · intro t _
    rw [recordBytes, List.length_append, List.length_append, hnrm,
      encBlocks_length henc (length_triPoints points t)]
    rfl

/-- Counterexample to C9 as stated: bytes 80..83 of the writer's output
are not the 4-byte triangle count — byte 80 is the newline that ends the
81-byte preamble (for an empty mesh the output has 85 bytes, not the
80 + 4 the claim implies). -/
theorem stl_C9_counterexample :
    ((write_binary (fun x : ℤ => [x.toNat % 256, 0, 0, 0])
        (fun _ => List.replicate 12 0) [] [(triangleKey, [])]).drop 80).take 4
      ≠ u32enc 0
  ∧ (write_binary (fun x : ℤ => [x.toNat % 256, 0, 0, 0])
      (fun _ => List.replicate 12 0) [] [(triangleKey, [])]).length = 85 := by
  exact ⟨by decide, by decide⟩

/-- Witness for the amended C9 at a concrete one-triangle mesh. -/
theorem stl_C9_witness :
    write_binary (fun x : ℤ => [x.toNat % 256, 0, 0, 0])
        (fun _ => List.replicate 12 0)
        [((0 : ℤ), (0 : ℤ), (0 : ℤ)), (1, 0, 0), (2, 0, 0)]
        [(triangleKey, [(0, 1, 2)])]
      = (strBytes headerMsg
          ++ List.replicate (80 - (strBytes headerMsg).length) 88)
        ++ [10] ++ u32enc ([((0 : ℕ), (1 : ℕ), (2 : ℕ))] : List (ℕ × ℕ × ℕ)).length
        ++ ((([((0 : ℕ), (1 : ℕ), (2 : ℕ))] : List (ℕ × ℕ × ℕ)).map
            (triPoints [((0 : ℤ), (0 : ℤ), (0 : ℤ)), (1, 0, 0), (2, 0, 0)])).map
          (recordBytes (fun x : ℤ => [x.toNat % 256, 0, 0, 0])
            (fun _ => List.replicate 12 0))).flatten :=
  (stl_C9_binary_layout_amended (fun x : ℤ => [x.toNat % 256, 0, 0, 0])
    (fun _ => List.replicate 12 0)
    [((0 : ℤ), (0 : ℤ), (0 : ℤ)), (1, 0, 0), (2, 0, 0)]
    [(0, 1, 2)] (fun _ => rfl) (fun _ => rfl)).1

/-- Claim C7 (amended): each of the grammar violations — a non-facet,
non-endsolid line where a facet is expected; a missing `outer loop` line;
a vertex line without exactly 4 whitespace tokens starting with the
literal `vertex`; a missing `endloop` line; a missing `endfacet` line —
makes the ASCII parser fail, but with a bare assertion error that carries
neither the offending line nor a line number (the well-formed parts of
each stream below are fixed canonical lines; the offending line `L` is
arbitrary). -/
theorem stl_C7_ascii_errors_amended :
    (∀ (pf : List ℕ → α) (L rest : List ℕ), 10 ∉ L →
      (L ++ [10]).take 8 ≠ endsolidBytes →
      (stripBytes (L ++ [10])).take 5 ≠ facetBytes →
      read_ascii pf (L ++ 10 :: rest) = .error .assertionError)
  ∧ (∀ (pf : List ℕ → α) (L rest : List ℕ), 10 ∉ L →
      stripBytes (L ++ [10]) ≠ outerLoopBytes →
      read_ascii pf (facetLine ++ 10 :: (L ++ 10 :: rest))
        = .error .assertionError)
  ∧ (∀ (pf : List ℕ → α) (L rest : List ℕ), 10 ∉ L →
      ((splitWs (L ++ [10])).length ≠ 4
        ∨ (splitWs (L ++ [10])).getD 0 [] ≠ vertexBytes) →
      read_ascii pf (facetLine ++ 10 :: (outerLine ++ 10 :: (L ++ 10 :: rest)))
        = .error .assertionError)
  ∧ (∀ (pf : List ℕ → α) (L rest : List ℕ), 10 ∉ L →
      stripBytes (L ++ [10]) ≠ endloopBytes →
      read_ascii pf (facetLine ++ 10 :: (outerLine ++ 10 :: (vertexLineC ++ 10 ::
        (vertexLineC ++ 10 :: (vertexLineC ++ 10 :: (L ++ 10 :: rest))))))
        = .error .assertionError)
  ∧ (∀ (pf : List ℕ → α) (L rest : List ℕ), 10 ∉ L →
      stripBytes (L ++ [10]) ≠ endfacetBytes →
      read_ascii pf (facetLine ++ 10 :: (outerLine ++ 10 :: (vertexLineC ++ 10 ::
        (vertexLineC ++ 10 :: (vertexLineC ++ 10 :: (endloopLine ++ 10 ::
          (L ++ 10 :: rest)))))))
        = .error .assertionError) := by
  refine ⟨?_, ?_, ?_, ?_, ?_⟩
  · intro pf L rest h10 hns hnf
    exact read_ascii_of_loop_error (readSolidLoop_error_head h10 hns hnf)
  · intro pf L rest h10 hol
    exact read_ascii_of_loop_error
      (readSolidLoop_facet_error (read_facet_outer_error h10 hol))
  · intro pf L rest h10 hbad
    exact read_ascii_of_loop_error
      (readSolidLoop_facet_error (read_facet_vertex_error h10 hbad))
  · intro pf L rest h10 hel
    exact read_ascii_of_loop_error
      (readSolidLoop_facet_error (read_facet_endloop_error h10 hel))
  · intro pf L rest h10 hne
    exact read_ascii_of_loop_error
      (readSolidLoop_endfacet_error (read_facet_canonical pf (L ++ 10 :: rest))
        h10 hne)

/-- Counterexample to C7 as stated: on a concrete grammar violation the
parser's error is the bare assertion — a value carrying no offending-line
text and no line number, unlike the located `ParseError` the claim
promises (represented by the never-constructed `PyErr.parseErrorAt`). -/
theorem stl_C7_counterexample :
    read_ascii (fun _ => (0 : ℤ)) (strBytes ("bogus") ++ 10 :: [])
      = .error .assertionError
  ∧ Except.error PyErr.assertionError
      ≠ (.error (PyErr.parseErrorAt (strBytes ("bogus")) 2) :
          Except PyErr (ReadResult ℤ)) := by
  constructor
  · exact read_ascii_of_loop_error
      (readSolidLoop_error_head (by decide) (by decide) (by decide))
  · decide

/-- Claim C8 (amended): the code defines no `FormatError` and the detector
itself never fails.  For a stream whose first line is `line` (newline
terminated), it selects the ASCII parser exactly when the line's first 5
bytes are `solid` and the binary parser otherwise, handing the chosen
parser the stream after the consumed line; on an empty stream it routes to
the binary parser, which fails with the numpy `ValueError` for an empty
buffer — not a `FormatError`. -/
theorem stl_C8_detector_amended :
    (∀ (pf dec : List ℕ → α) (line rest : List ℕ), 10 ∉ line →
      read_buffer pf dec (line ++ 10 :: rest)
        = if line.take 5 = solidBytes then read_ascii pf rest
          else read_binary dec rest)
  ∧ ∀ (pf dec : List ℕ → α), read_buffer pf dec [] = .error .valueError := by
  constructor
  · intro pf dec line rest h10
    rw [read_buffer, readLineBytes_append h10]
    dsimp only
    by_cases hs : line.take 5 = solidBytes
    · rw [if_pos ((take5_append_ten h10).mpr hs), if_pos hs]
    · rw [if_neg (fun hc => hs ((take5_append_ten h10).mp hc)), if_neg hs]
  · intro pf dec
    rfl

/-- Counterexample to C8 as stated: the empty stream does not fail with a
`FormatError` — the detector routes it to the binary parser, whose numpy
read of 0 bytes raises `ValueError`. -/
theorem stl_C8_counterexample :
    read_buffer (fun _ => (0 : ℤ)) (fun _ => (0 : ℤ)) [] = .error .valueError
  ∧ PyErr.valueError ≠ PyErr.formatError := by
  exact ⟨rfl, by decide⟩

/-- Claim C10: every successful read, through either parser, returns
empty point-data, cell-data and field-data dictionaries alongside the
vertices and the triangle cells. -/
theorem stl_C10_read_no_data (pf dec : List ℕ → α) (s : List ℕ)
    (res : ReadResult α) (h : read_buffer pf dec s = .ok res) :
    res.2.2.1 = [] ∧ res.2.2.2.1 = [] ∧ res.2.2.2.2 = [] := by
  rw [read_buffer] at h
  split at h
  · exact read_ascii_data_empty h
  · exact read_binary_data_empty h

/-- Witness for C10 on a concrete binary stream that reads successfully. -/
theorem stl_C10_witness :
    (([((0 : ℤ), (0 : ℤ), (0 : ℤ))], [((0 : ℕ), (0 : ℕ), (0 : ℕ))],
        ([] : List String), ([] : List String), ([] : List String)) :
      ReadResult ℤ).2.2.1 = []
  ∧ (([((0 : ℤ), (0 : ℤ), (0 : ℤ))], [((0 : ℕ), (0 : ℕ), (0 : ℕ))],
        ([] : List String), ([] : List String), ([] : List String)) :
      ReadResult ℤ).2.2.2.1 = []
  ∧ (([((0 : ℤ), (0 : ℤ), (0 : ℤ))], [((0 : ℕ), (0 : ℕ), (0 : ℕ))],
        ([] : List String), ([] : List String), ([] : List String)) :
      ReadResult ℤ).2.2.2.2 = [] :=
  stl_C10_read_no_data (fun _ => (0 : ℤ)) (fun b => ((b.getD 0 0 : ℕ) : ℤ))
    ([98, 10] ++ u32enc 1 ++ List.replicate 50 0)
    ([((0 : ℤ), (0 : ℤ), (0 : ℤ))], [((0 : ℕ), (0 : ℕ), (0 : ℕ))],
      [], [], []) (by decide)

end Claims

end Stl
